import Mathlib

/-!
Verification development for the wgsl-imports crate: the identifier-mangling
scheme (FileManglerHash), the AST rewrite engine (replace_imported_ident and
its visitor helpers in src/crates/wgsl-imports/src/mangle.rs), Module::mangle,
and the compile pipeline of src/crates/wgsl-imports/src/lib.rs.

The AST types mirror the wgsl_parse syntax tree exactly as the crate uses it.
The parser library's generic visiting facility (visit_mut builders,
visit_fields, visit_variants) is a projection DSL: a chain such as
x.visit_mut().initializer().some() yields the projected node(s) themselves,
.each() iterates a vector field, .some() an optional field, and
visit_variants dispatches on the matched variant (unmatched variants yield
nothing).  Every iterator-of-mutable-references chain followed by an in-place
mutation is embedded as a pure map applying that mutation at exactly the
positions the chain yields; the yielded positions are pairwise disjoint
subtrees, so the sequential in-place mutation and the simultaneous pure map
agree.
-/

namespace WgslImports

/-- A canonicalized file path identifying an importable unit. -/
structure FileResource where
  path : String
deriving DecidableEq, Repr

structure TypeExpression where
  name : String
deriving DecidableEq, Repr

inductive UnaryOperator where
  | logicalNegation | negation | addressOf | indirection
deriving DecidableEq, Repr

inductive BinaryOperator where
  | addition | subtraction | multiplication | division | lessThan | logicalOr | logicalAnd
deriving DecidableEq, Repr

inductive Expression where
  | literal (value : Int)
  | parenthesized (inner : Expression)
  | namedComponent (base : Expression) (component : String)
  | indexing (base : Expression) (index : Expression)
  | unary (op : UnaryOperator) (operand : Expression)
  | binary (op : BinaryOperator) (left : Expression) (right : Expression)
  | functionCall (name : String) (arguments : List Expression)
  | type (typ : TypeExpression)

/-- One imported item of an import directive: the exported name and an
optional local alias. -/
structure ImportItem where
  name : String
  rename : Option String
deriving DecidableEq, Repr

/-- A value declaration (global or local): declared name, optional type
annotation, optional initializer. -/
structure Declaration where
  name : String
  typ : Option TypeExpression
  initializer : Option Expression

/-- A case selector of a switch clause, carrying its match expression. -/
structure CaseSelector where
  match_expression : Expression

mutual

inductive Statement where
  | compound (body : CompoundStatement)
  | assignment (lhs : Expression) (rhs : Expression)
  | increment (expr : Expression)
  | decrement (expr : Expression)
  | ifStmt (if_clause : Expression × CompoundStatement)
      (else_if_clauses : List (Expression × CompoundStatement))
      (else_clause : Option CompoundStatement)
  | switch (expression : Expression) (clauses : List SwitchClause)
  | loop (body : CompoundStatement) (continuing : Option ContinuingStatement)
  | forStmt (initializer : Option Statement) (condition : Option Expression)
      (update : Option Statement) (body : CompoundStatement)
  | whileStmt (condition : Expression) (body : CompoundStatement)
  | ret (expr : Option Expression)
  | functionCall (name : String) (arguments : List Expression)
  | breakStmt
  | continueStmt
  | discard
  | constAssert (expression : Expression)
  | declaration (decl : Declaration)

inductive CompoundStatement where
  | mk (statements : List Statement)

inductive ContinuingStatement where
  | mk (body : CompoundStatement) (break_if : Option Expression)

inductive SwitchClause where
  | mk (case_selectors : List CaseSelector) (body : CompoundStatement)

end

def CompoundStatement.statements : CompoundStatement → List Statement
  | .mk s => s

def ContinuingStatement.body : ContinuingStatement → CompoundStatement
  | .mk b _ => b

def ContinuingStatement.break_if : ContinuingStatement → Option Expression
  | .mk _ b => b

def SwitchClause.case_selectors : SwitchClause → List CaseSelector
  | .mk s _ => s

def SwitchClause.body : SwitchClause → CompoundStatement
  | .mk _ b => b

structure StructMember where
  name : String
  typ : TypeExpression
deriving DecidableEq, Repr

structure Struct where
  name : String
  members : List StructMember
deriving DecidableEq, Repr

structure TypeAlias where
  name : String
  typ : TypeExpression
deriving DecidableEq, Repr

structure FormalParameter where
  name : String
  typ : TypeExpression
deriving DecidableEq, Repr

structure Function where
  name : String
  parameters : List FormalParameter
  return_type : Option TypeExpression
  body : CompoundStatement

inductive GlobalDeclaration where
  | declaration (d : Declaration)
  | typeAlias (a : TypeAlias)
  | struct (s : Struct)
  | function (f : Function)
  | importDecl (path : String) (items : List ImportItem)
  | constAssert (expression : Expression)

structure TranslationUnit where
  global_declarations : List GlobalDeclaration

/-!
The AST rewrite engine, translated from replace_imported_ident and its
helpers in src/crates/wgsl-imports/src/mangle.rs.

expr_visit_exprs (mangle.rs lines 60-75) yields, for each expression
variant, exactly the sub-expression positions written in its visit_variants
arms: the inner node of a parenthesized expression, and (recursively) the
expr_visit_exprs positions of a named-component base, of an indexing base
and index, of a unary operand, of both binary operands, and of each
function-call argument; Literal and Type expressions yield nothing.

The nested function expr_replace (mangle.rs lines 134-169) applied to a node
e renames e's own identifier only when e is a FunctionCall (callee name) or a
Type expression; in every other case it applies itself to each position that
expr_visit_exprs yields for e's children.  Its composite action "mutate every
position expr_visit_exprs yields for e" is embedded as eveReplace, and
expr_replace itself as exprReplace.
-/

mutual

/-- expr_replace(expr, old, new) of mangle.rs: renames the callee of a
FunctionCall expression and the name of a Type expression when they equal
old; for the other variants it applies itself at the positions yielded by
expr_visit_exprs of the corresponding sub-expressions. -/
def exprReplace (old new : String) : Expression → Expression
  | .literal v => .literal v
  | .parenthesized inner => .parenthesized (eveReplace old new inner)
  | .namedComponent base comp => .namedComponent (eveReplace old new base) comp
  | .indexing base index => .indexing (eveReplace old new base) (eveReplace old new index)
  | .unary op operand => .unary op (eveReplace old new operand)
  | .binary op l r => .binary op (eveReplace old new l) (eveReplace old new r)
  | .functionCall name args =>
      .functionCall (if name = old then new else name) (eveReplaceList old new args)
  | .type t => .type (if t.name = old then ⟨new⟩ else t)

/-- The action of applying expr_replace at every position yielded by
expr_visit_exprs(e) (mangle.rs lines 60-75): the parenthesized arm yields the
inner node itself, all other arms recurse without yielding their immediate
child, and Literal and Type yield no position. -/
def eveReplace (old new : String) : Expression → Expression
  | .literal v => .literal v
  | .parenthesized inner => .parenthesized (exprReplace old new inner)
  | .namedComponent base comp => .namedComponent (eveReplace old new base) comp
  | .indexing base index => .indexing (eveReplace old new base) (eveReplace old new index)
  | .unary op operand => .unary op (eveReplace old new operand)
  | .binary op l r => .binary op (eveReplace old new l) (eveReplace old new r)
  | .functionCall name args => .functionCall name (eveReplaceList old new args)
  | .type t => .type t

def eveReplaceList (old new : String) : List Expression → List Expression
  | [] => []
  | e :: rest => eveReplace old new e :: eveReplaceList old new rest

end

mutual

/-- stat_visit_exprs (mangle.rs lines 77-125) followed by expr_replace at
each yielded expression node: the pure form of the statement traversal of
replace_imported_ident.  Each arm applies exprReplace exactly at the
expression positions the visit chain of that variant yields (assignment lhs
and rhs, increment and decrement operands, if and else-if conditions, the
switch selector, each case selector match expression, the loop break-if
condition, the for condition, the while condition, the return value, each
bare-call argument, const-assert and local-declaration expressions), and
recurses into nested statement lists. -/
def statReplace (old new : String) : Statement → Statement
  | .compound body => .compound (compReplace old new body)
  | .assignment lhs rhs => .assignment (exprReplace old new lhs) (exprReplace old new rhs)
  | .increment e => .increment (exprReplace old new e)
  | .decrement e => .decrement (exprReplace old new e)
  | .ifStmt (cond, body) elifs els =>
      .ifStmt (exprReplace old new cond, compReplace old new body)
        (ifClausesReplace old new elifs)
        (match els with
          | none => none
          | some c => some (compReplace old new c))
  | .switch e clauses => .switch (exprReplace old new e) (switchClausesReplace old new clauses)
  | .loop body cont =>
      .loop (compReplace old new body)
        (match cont with
          | none => none
          | some c => some (contReplace old new c))
  | .forStmt init cond upd body =>
      .forStmt
        (match init with
          | none => none
          | some s => some (statReplace old new s))
        (match cond with
          | none => none
          | some e => some (exprReplace old new e))
        (match upd with
          | none => none
          | some s => some (statReplace old new s))
        (compReplace old new body)
  | .whileStmt cond body => .whileStmt (exprReplace old new cond) (compReplace old new body)
  | .ret e =>
      .ret (match e with
        | none => none
        | some e => some (exprReplace old new e))
  | .functionCall name args => .functionCall name (exprReplaceList old new args)
  | .breakStmt => .breakStmt
  | .continueStmt => .continueStmt
  | .discard => .discard
  | .constAssert e => .constAssert (exprReplace old new e)
  | .declaration d =>
      .declaration
        { d with initializer :=
            match d.initializer with
            | none => none
            | some e => some (exprReplace old new e) }

def compReplace (old new : String) : CompoundStatement → CompoundStatement
  | .mk stmts => .mk (statReplaceList old new stmts)

def statReplaceList (old new : String) : List Statement → List Statement
  | [] => []
  | s :: rest => statReplace old new s :: statReplaceList old new rest

def ifClausesReplace (old new : String) :
    List (Expression × CompoundStatement) → List (Expression × CompoundStatement)
  | [] => []
  | (e, c) :: rest => (exprReplace old new e, compReplace old new c) :: ifClausesReplace old new rest

def switchClausesReplace (old new : String) : List SwitchClause → List SwitchClause
  | [] => []
  | .mk sels body :: rest =>
      .mk (caseSelectorsReplace old new sels) (compReplace old new body) ::
        switchClausesReplace old new rest

def caseSelectorsReplace (old new : String) : List CaseSelector → List CaseSelector
  | [] => []
  | cs :: rest => ⟨exprReplace old new cs.match_expression⟩ :: caseSelectorsReplace old new rest

def contReplace (old new : String) : ContinuingStatement → ContinuingStatement
  | .mk body brk =>
      .mk (compReplace old new body)
        (match brk with
          | none => none
          | some e => some (exprReplace old new e))

def exprReplaceList (old new : String) : List Expression → List Expression
  | [] => []
  | e :: rest => exprReplace old new e :: exprReplaceList old new rest

end

/-- Renaming of one TypeExpression position yielded by mod_visit_type_exprs
(the if-equal replacement on type_expr.name in replace_imported_ident). -/
def tyReplace (old new : String) (t : TypeExpression) : TypeExpression :=
  if t.name = old then ⟨new⟩ else t

def paramReplace (old new : String) (p : FormalParameter) : FormalParameter :=
  { p with typ := tyReplace old new p.typ }

def memberReplace (old new : String) (m : StructMember) : StructMember :=
  { m with typ := tyReplace old new m.typ }

/-- First pass of replace_imported_ident: the positions yielded by
mod_visit_type_exprs (mangle.rs lines 43-57): a value declaration's optional
type annotation, a type alias target, each struct member type, each function
parameter type and the optional return type.  Other global declarations
yield nothing. -/
def gdTypeReplace (old new : String) : GlobalDeclaration → GlobalDeclaration
  | .declaration d => .declaration { d with typ := d.typ.map (tyReplace old new) }
  | .typeAlias a => .typeAlias { a with typ := tyReplace old new a.typ }
  | .struct s => .struct { s with members := s.members.map (memberReplace old new) }
  | .function f =>
      .function
        { f with
          parameters := f.parameters.map (paramReplace old new),
          return_type := f.return_type.map (tyReplace old new) }
  | .importDecl p items => .importDecl p items
  | .constAssert e => .constAssert e

/-- Second pass of replace_imported_ident: expr_replace applied at every
position yielded by mod_visit_exprs (mangle.rs lines 31-41): a value
declaration's initializer node, and the stat_visit_exprs positions of each
statement of a function body.  Other global declarations yield nothing. -/
def gdExprReplace (old new : String) : GlobalDeclaration → GlobalDeclaration
  | .declaration d =>
      .declaration
        { d with initializer :=
            match d.initializer with
            | none => none
            | some e => some (exprReplace old new e) }
  | .typeAlias a => .typeAlias a
  | .struct s => .struct s
  | .function f => .function { f with body := compReplace old new f.body }
  | .importDecl p items => .importDecl p items
  | .constAssert e => .constAssert e

/-- replace_imported_ident (mangle.rs lines 127-176): first rewrites every
mod_visit_type_exprs position whose name equals old, then applies
expr_replace at every mod_visit_exprs position. -/
def replaceImportedIdent (tu : TranslationUnit) (old new : String) : TranslationUnit :=
  ⟨(tu.global_declarations.map (gdTypeReplace old new)).map (gdExprReplace old new)⟩

/-!
The default mangler FileManglerHash (mangle.rs lines 19-29): a fresh
std DefaultHasher is created per call, the resource and then the item name
are fed to it, and the result is rendered as "{item}_{hash}".
-/

/-- Modelled from the spec: std DefaultHasher (not part of this repository)
is a deterministic fixed-key 64-bit hasher; it is modelled as a polynomial
fold over the fed characters, reduced modulo 2 ^ 64 at each step. -/
def hashStep (acc : Nat) (c : Char) : Nat := (acc * 31 + c.toNat) % 2 ^ 64

def hashString (acc : Nat) (s : String) : Nat := s.data.foldl hashStep acc

/-- The 64-bit hash of the resource identity followed by the item name, as
fed to the hasher by FileManglerHash::mangle. -/
def defaultHash (r : FileResource) (item : String) : Nat :=
  hashString (hashString 0 r.path) item

def decDigit (n : Nat) : Char :=
  match n with
  | 0 => '0' | 1 => '1' | 2 => '2' | 3 => '3' | 4 => '4'
  | 5 => '5' | 6 => '6' | 7 => '7' | 8 => '8' | _ => '9'

/-- Modelled from the spec: the decimal rendering of the hash value produced
by the Rust format string (std Display for u64, not part of this
repository): most significant digit first, no leading zeros, and "0" for
zero. -/
def decRepr (n : Nat) : String :=
  if n = 0 then "0" else ⟨(Nat.digits 10 n).reverse.map decDigit⟩

/-- FileManglerHash::mangle (mangle.rs lines 21-29). -/
def fileManglerHash (r : FileResource) (item : String) : String :=
  item ++ "_" ++ decRepr (defaultHash r item)

/-!
Modules and Module::mangle (mangle.rs lines 178-190).  A Module owns its
resource identity, its parsed source and its resolved import map; the import
map is an ordered association of target resources to the import items taken
from them.
-/

inductive ImportError where
  | resourceNotFound (resource : FileResource)
  | parseError (resource : FileResource)
  | cyclicImport (cycle : List FileResource)
  | unresolvedImport (item : String) (importer : FileResource) (target : FileResource)

structure Module where
  resource : FileResource
  source : TranslationUnit
  imports : List (FileResource × List ImportItem)

/-- Module::mangle (mangle.rs lines 178-190): for every import item of every
imported resource, the identifier to replace is the rename alias when
present and the exported name otherwise, the replacement is the mangled form
of the exported name, and replace_imported_ident rewrites the module's own
source; the Rust method mutates self and returns Ok(()), embedded here as
returning the updated module in Except.ok. -/
def Module.mangle (m : Module) (mangler : FileResource → String → String) :
    Except ImportError Module :=
  .ok
    { m with
      source :=
        m.imports.foldl
          (fun src p =>
            p.2.foldl
              (fun src item =>
                replaceImportedIdent src (item.rename.getD item.name) (mangler p.1 item.name))
              src)
          m.source }

/-!
The resolution and assembly stages.  Their code (resolve.rs and assemble.rs)
is not among the provided sources; they are modelled from the spec, sections
4.1, 4.2 and 4.5, at the granularity the compile pipeline of lib.rs needs.
-/

/-- Modelled from the spec: the Resolver capability (section 4.1, not among
the provided sources) deterministically turns an import path into a resource
plus its text, and the external parser turns that text into a
TranslationUnit.  Both are modelled together as a finite association of
already-canonical paths to pre-parsed translation units, so ParseError does
not arise in the model. -/
def ResolverMap := List (FileResource × TranslationUnit)

def lookupResolver (rm : ResolverMap) (r : FileResource) : Option TranslationUnit :=
  match rm.find? (fun p => p.1 == r) with
  | none => none
  | some p => some p.2

/-- The import directives of a translation unit: target path and items. -/
def importsOf (tu : TranslationUnit) : List (String × List ImportItem) :=
  tu.global_declarations.filterMap fun d =>
    match d with
    | .importDecl p items => some (p, items)
    | _ => none

/-- The names declared by the top-level declarations of a translation
unit. -/
def declaredNames (tu : TranslationUnit) : List String :=
  tu.global_declarations.filterMap fun d =>
    match d with
    | .declaration d => some d.name
    | .typeAlias a => some a.name
    | .struct s => some s.name
    | .function f => some f.name
    | .importDecl _ _ => none
    | .constAssert _ => none

/-- Modelled from the spec: Module::resolve (section 4.2, resolve.rs is not
among the provided sources): a depth-first walk memoized by resource, with
cycle detection on the active recursion stack; each import item must name a
top-level declaration of the target module; each built module is mangled
(Module::mangle above, which is in the provided sources) and recorded in the
memo table after its dependencies, so the table is in dependency order.  The
fuel argument bounds the recursion depth; compile passes one more than the
number of known resources, which the walk cannot exceed because every
recursion step pushes a distinct resolvable resource onto the stack. -/
def resolveRec (rm : ResolverMap) (mangler : FileResource → String → String) :
    Nat → List FileResource → List (FileResource × Module) → FileResource →
    Except ImportError (Module × List (FileResource × Module))
  | 0, stack, _, res => .error (.cyclicImport (stack ++ [res]))
  | fuel + 1, stack, memo, res =>
    match memo.find? (fun p => p.1 == res) with
    | some p => .ok (p.2, memo)
    | none =>
      if res ∈ stack then .error (.cyclicImport (stack ++ [res]))
      else
        match lookupResolver rm res with
        | none => .error (.resourceNotFound res)
        | some tu => do
          let st ←
            (importsOf tu).foldlM
              (fun (st : List (FileResource × List ImportItem) × List (FileResource × Module))
                   (pi : String × List ImportItem) => do
                let target : FileResource := ⟨pi.1⟩
                let (tm, memo') ← resolveRec rm mangler fuel (stack ++ [res]) st.2 target
                match pi.2.find? (fun item => !((declaredNames tm.source).contains item.name)) with
                | some item => .error (.unresolvedImport item.name res target)
                | none => .ok (st.1 ++ [(target, pi.2)], memo'))
              ([], memo)
          let m : Module := { resource := res, source := tu, imports := st.1 }
          let m' ← m.mangle mangler
          .ok (m', st.2 ++ [(res, m')])

def GlobalDeclaration.isImport : GlobalDeclaration → Bool
  | .importDecl _ _ => true
  | _ => false

/-- Renaming a top-level declaration to its mangled form, keyed by its own
module's resource and its original name (spec section 4.5, step 2). -/
def renameDecl (mangler : FileResource → String → String) (res : FileResource) :
    GlobalDeclaration → GlobalDeclaration
  | .declaration d => .declaration { d with name := mangler res d.name }
  | .typeAlias a => .typeAlias { a with name := mangler res a.name }
  | .struct s => .struct { s with name := mangler res s.name }
  | .function f => .function { f with name := mangler res f.name }
  | .importDecl p items => .importDecl p items
  | .constAssert e => .constAssert e

/-- Modelled from the spec: the Assembler (section 4.5, assemble.rs is not
among the provided sources): modules are emitted in dependency order (the
memo table's order), each exactly once; import directives are omitted
entirely; every top-level declaration of a non-entry module is renamed to
its mangled form. -/
def assemble (mangler : FileResource → String → String) (entry : FileResource)
    (memo : List (FileResource × Module)) : TranslationUnit :=
  ⟨memo.flatMap fun p =>
    let decls := p.2.source.global_declarations.filter fun d => !d.isImport
    if p.1 == entry then decls else decls.map (renameDecl mangler p.1)⟩

/-- compile (lib.rs lines 11-20): resolve the entry resource with the
default resolver and mangler, then assemble the resolved module graph. -/
def compile (rm : ResolverMap) (entry : FileResource) : Except ImportError TranslationUnit :=
  match resolveRec rm fileManglerHash (rm.length + 1) [] [] entry with
  | .error e => .error e
  | .ok (_, memo) => .ok (assemble fileManglerHash entry memo)

/-! Supporting lemmas. -/

theorem foldl_hashStep_lt (l : List Char) :
    ∀ acc : Nat, acc < 2 ^ 64 → List.foldl hashStep acc l < 2 ^ 64 := by
  induction l with
  | nil => intro acc h; exact h
  | cons c rest ih =>
    intro acc _
    exact ih _ (Nat.mod_lt _ (by positivity))

theorem hashString_lt (s : String) (acc : Nat) (h : acc < 2 ^ 64) :
    hashString acc s < 2 ^ 64 :=
  foldl_hashStep_lt s.data acc h

theorem defaultHash_lt (r : FileResource) (item : String) :
    defaultHash r item < 2 ^ 64 :=
  hashString_lt _ _ (hashString_lt _ _ (by positivity))

/-!
Binding positions: the declared names a translation unit introduces (global
declaration names, struct member names, function parameter names, and the
names of local variable declarations inside statements).  These are the
positions replace_imported_ident must leave alone.
-/

mutual

def statBindingNames : Statement → List String
  | .compound c => compBindingNames c
  | .assignment _ _ => []
  | .increment _ => []
  | .decrement _ => []
  | .ifStmt (_, body) elifs els =>
      compBindingNames body ++ ifClausesBindingNames elifs ++
        (match els with
          | none => []
          | some c => compBindingNames c)
  | .switch _ cls => switchClausesBindingNames cls
  | .loop b cont =>
      compBindingNames b ++
        (match cont with
          | none => []
          | some c => contBindingNames c)
  | .forStmt i _ u b =>
      (match i with
        | none => []
        | some s => statBindingNames s) ++
      (match u with
        | none => []
        | some s => statBindingNames s) ++
      compBindingNames b
  | .whileStmt _ b => compBindingNames b
  | .ret _ => []
  | .functionCall _ _ => []
  | .breakStmt => []
  | .continueStmt => []
  | .discard => []
  | .constAssert _ => []
  | .declaration d => [d.name]

def compBindingNames : CompoundStatement → List String
  | .mk stmts => statListBindingNames stmts

def statListBindingNames : List Statement → List String
  | [] => []
  | s :: rest => statBindingNames s ++ statListBindingNames rest

def ifClausesBindingNames : List (Expression × CompoundStatement) → List String
  | [] => []
  | (_, c) :: rest => compBindingNames c ++ ifClausesBindingNames rest

def switchClausesBindingNames : List SwitchClause → List String
  | [] => []
  | .mk _ b :: rest => compBindingNames b ++ switchClausesBindingNames rest

def contBindingNames : ContinuingStatement → List String
  | .mk b _ => compBindingNames b

end

def gdBindingNames : GlobalDeclaration → List String
  | .declaration d => [d.name]
  | .typeAlias a => [a.name]
  | .struct s => s.name :: s.members.map (fun m => m.name)
  | .function f => f.name :: (f.parameters.map (fun p => p.name) ++ compBindingNames f.body)
  | .importDecl _ _ => []
  | .constAssert _ => []

def bindingNames (tu : TranslationUnit) : List String :=
  tu.global_declarations.flatMap gdBindingNames

mutual

theorem statBindingNames_replace (old new : String) :
    ∀ s, statBindingNames (statReplace old new s) = statBindingNames s
  | .compound c => by
      simp [statReplace, statBindingNames, compBindingNames_replace old new c]
  | .assignment _ _ => rfl
  | .increment _ => rfl
  | .decrement _ => rfl
  | .ifStmt (cond, body) elifs els => by
      cases els with
      | none =>
        simp [statReplace, statBindingNames, compBindingNames_replace old new body,
          ifClausesBindingNames_replace old new elifs]
      | some c =>
        simp [statReplace, statBindingNames, compBindingNames_replace old new body,
          ifClausesBindingNames_replace old new elifs, compBindingNames_replace old new c]
  | .switch _ cls => by
      simp [statReplace, statBindingNames, switchClausesBindingNames_replace old new cls]
  | .loop b cont => by
      cases cont with
      | none => simp [statReplace, statBindingNames, compBindingNames_replace old new b]
      | some c =>
        simp [statReplace, statBindingNames, compBindingNames_replace old new b,
          contBindingNames_replace old new c]
  | .forStmt i c u b => by
      cases i with
      | none =>
        cases u with
        | none => simp [statReplace, statBindingNames, compBindingNames_replace old new b]
        | some su =>
          simp [statReplace, statBindingNames, compBindingNames_replace old new b,
            statBindingNames_replace old new su]
      | some si =>
        cases u with
        | none =>
          simp [statReplace, statBindingNames, compBindingNames_replace old new b,
            statBindingNames_replace old new si]
        | some su =>
          simp [statReplace, statBindingNames, compBindingNames_replace old new b,
            statBindingNames_replace old new si, statBindingNames_replace old new su]
  | .whileStmt _ b => by
      simp [statReplace, statBindingNames, compBindingNames_replace old new b]
  | .ret _ => rfl
  | .functionCall _ _ => rfl
  | .breakStmt => rfl
  | .continueStmt => rfl
  | .discard => rfl
  | .constAssert _ => rfl
  | .declaration _ => rfl

theorem compBindingNames_replace (old new : String) :
    ∀ c, compBindingNames (compReplace old new c) = compBindingNames c
  | .mk stmts => by
      simp [compReplace, compBindingNames, statListBindingNames_replace old new stmts]

theorem statListBindingNames_replace (old new : String) :
    ∀ l, statListBindingNames (statReplaceList old new l) = statListBindingNames l
  | [] => rfl
  | s :: rest => by
      simp [statReplaceList, statListBindingNames, statBindingNames_replace old new s,
        statListBindingNames_replace old new rest]

theorem ifClausesBindingNames_replace (old new : String) :
    ∀ l, ifClausesBindingNames (ifClausesReplace old new l) = ifClausesBindingNames l
  | [] => rfl
  | (e, c) :: rest => by
      simp [ifClausesReplace, ifClausesBindingNames, compBindingNames_replace old new c,
        ifClausesBindingNames_replace old new rest]

theorem switchClausesBindingNames_replace (old new : String) :
    ∀ l, switchClausesBindingNames (switchClausesReplace old new l) = switchClausesBindingNames l
  | [] => rfl
  | .mk sels b :: rest => by
      simp [switchClausesReplace, switchClausesBindingNames, compBindingNames_replace old new b,
        switchClausesBindingNames_replace old new rest]

theorem contBindingNames_replace (old new : String) :
    ∀ c, contBindingNames (contReplace old new c) = contBindingNames c
  | .mk b brk => by
      simp [contReplace, contBindingNames, compBindingNames_replace old new b]

end

theorem gdBindingNames_replace (old new : String) (d : GlobalDeclaration) :
    gdBindingNames (gdExprReplace old new (gdTypeReplace old new d)) = gdBindingNames d := by
  cases d with
  | declaration d => rfl
  | typeAlias a => rfl
  | struct s =>
    simp [gdTypeReplace, gdExprReplace, gdBindingNames, List.map_map, Function.comp,
      memberReplace]
  | function f =>
    simp [gdTypeReplace, gdExprReplace, gdBindingNames, List.map_map, Function.comp,
      paramReplace, compBindingNames_replace]
  | importDecl p items => rfl
  | constAssert e => rfl

theorem statReplaceList_append (old new : String) (a b : List Statement) :
    statReplaceList old new (a ++ b) = statReplaceList old new a ++ statReplaceList old new b := by
  induction a with
  | nil => rfl
  | cons s rest ih => simp [statReplaceList, ih]

theorem caseSelectorsReplace_append (old new : String) (a b : List CaseSelector) :
    caseSelectorsReplace old new (a ++ b)
      = caseSelectorsReplace old new a ++ caseSelectorsReplace old new b := by
  induction a with
  | nil => rfl
  | cons cs rest ih => simp [caseSelectorsReplace, ih]

theorem decDigit_ne_underscore (n : Nat) : decDigit n ≠ '_' := by
  unfold decDigit
  split <;> decide

theorem underscore_not_mem_decRepr (n : Nat) : '_' ∉ (decRepr n).data := by
  unfold decRepr
  split
  · decide
  · intro hmem
    have hmem' : '_' ∈ (Nat.digits 10 n).reverse.map decDigit := hmem
    obtain ⟨d, _, hd⟩ := List.mem_map.mp hmem'
    exact decDigit_ne_underscore d hd

theorem append_cons_underscore_inj :
    ∀ (a s b t : List Char), '_' ∉ s → '_' ∉ t →
      a ++ '_' :: s = b ++ '_' :: t → a = b ∧ s = t := by
  intro a
  induction a with
  | nil =>
    intro s b t hs ht h
    cases b with
    | nil => simpa using h
    | cons c b' =>
      exfalso
      simp only [List.nil_append, List.cons_append, List.cons.injEq] at h
      exact hs (h.2 ▸ List.mem_append.mpr (Or.inr (List.mem_cons_self _ _)))
  | cons c a' ih =>
    intro s b t hs ht h
    cases b with
    | nil =>
      exfalso
      simp only [List.nil_append, List.cons_append, List.cons.injEq] at h
      exact ht (h.2.symm ▸ List.mem_append.mpr (Or.inr (List.mem_cons_self _ _)))
    | cons d b' =>
      simp only [List.cons_append, List.cons.injEq] at h
      obtain ⟨hcd, h'⟩ := h
      obtain ⟨h1, h2⟩ := ih s b' t hs ht h'
      exact ⟨by rw [hcd, h1], h2⟩

theorem decDigit_inj_lt (a b : Nat) (ha : a < 10) (hb : b < 10)
    (h : decDigit a = decDigit b) : a = b := by
  interval_cases a <;> interval_cases b <;> revert h <;> decide

theorem map_decDigit_inj :
    ∀ l₁ l₂ : List Nat, (∀ x ∈ l₁, x < 10) → (∀ x ∈ l₂, x < 10) →
      l₁.map decDigit = l₂.map decDigit → l₁ = l₂ := by
  intro l₁
  induction l₁ with
  | nil =>
    intro l₂ _ _ h
    cases l₂ with
    | nil => rfl
    | cons y r₂ => simp at h
  | cons x r ih =>
    intro l₂ h₁ h₂ h
    cases l₂ with
    | nil => simp at h
    | cons y r₂ =>
      simp only [List.map_cons, List.cons.injEq] at h
      obtain ⟨hxy, hr⟩ := h
      have hx := h₁ x (List.mem_cons_self _ _)
      have hy := h₂ y (List.mem_cons_self _ _)
      have h1 := decDigit_inj_lt x y hx hy hxy
      have h2 := ih r₂ (fun z hz => h₁ z (List.mem_cons_of_mem _ hz))
        (fun z hz => h₂ z (List.mem_cons_of_mem _ hz)) hr
      rw [h1, h2]

theorem decRepr_singleton_zero (n : Nat) (h : decRepr n = "0") : n = 0 := by
  by_contra hn
  rw [decRepr, if_neg hn] at h
  have hd : (Nat.digits 10 n).reverse.map decDigit = ['0'] := congrArg String.data h
  have h10 : (1 : Nat) < 10 := by norm_num
  cases hrev : (Nat.digits 10 n).reverse with
  | nil => rw [hrev] at hd; simp at hd
  | cons d rest =>
    rw [hrev] at hd
    cases rest with
    | cons _ _ => simp at hd
    | nil =>
      simp only [List.map_cons, List.map_nil, List.cons.injEq, and_true] at hd
      have hdm : d ∈ Nat.digits 10 n := by
        have : d ∈ (Nat.digits 10 n).reverse := by rw [hrev]; exact List.mem_cons_self _ _
        exact List.mem_reverse.mp this
      have hdlt : d < 10 := Nat.digits_lt_base h10 hdm
      have hd0 : d = 0 := decDigit_inj_lt d 0 hdlt (by norm_num) hd
      have hdig : Nat.digits 10 n = [0] := by
        have := congrArg List.reverse hrev
        simpa [hd0] using this
      have := Nat.ofDigits_digits 10 n
      rw [hdig] at this
      simp [Nat.ofDigits] at this
      exact hn this.symm

theorem decRepr_inj (m n : Nat) (h : decRepr m = decRepr n) : m = n := by
  by_cases hm : m = 0
  · subst hm
    exact (decRepr_singleton_zero n (by rw [← h]; rfl)).symm
  · by_cases hn : n = 0
    · subst hn
      exact decRepr_singleton_zero m (by rw [h]; rfl)
    · have h10 : (1 : Nat) < 10 := by norm_num
      rw [decRepr, if_neg hm, decRepr, if_neg hn] at h
      have hd : (Nat.digits 10 m).reverse.map decDigit
          = (Nat.digits 10 n).reverse.map decDigit := congrArg String.data h
      have hrev := map_decDigit_inj _ _
        (fun x hx => Nat.digits_lt_base h10 (List.mem_reverse.mp hx))
        (fun x hx => Nat.digits_lt_base h10 (List.mem_reverse.mp hx)) hd
      have hdig : Nat.digits 10 m = Nat.digits 10 n :=
        List.reverse_injective hrev
      have := congrArg (Nat.ofDigits 10) hdig
      rwa [Nat.ofDigits_digits, Nat.ofDigits_digits] at this

/-! Claim theorems. -/

/-- Claim C1 (evaluation at the failing input): replace_imported_ident does
not rewrite an identifier appearing directly as the operand of a unary
expression, as an operand of a binary expression, as the inner expression of
a parenthesized expression, as the base of a named-component access, or as
the base or index of an indexing expression: a translation unit whose
initializers place the identifier foo in exactly those positions is returned
entirely unchanged, although the same identifier standing alone as an
initializer is rewritten. -/
theorem replace_misses_nested_reference_positions :
    replaceImportedIdent
      ⟨[.declaration ⟨"d1", none, some (.unary .negation (.type ⟨"foo"⟩))⟩,
        .declaration ⟨"d2", none, some (.binary .addition (.type ⟨"foo"⟩) (.literal 1))⟩,
        .declaration ⟨"d3", none, some (.parenthesized (.type ⟨"foo"⟩))⟩,
        .declaration ⟨"d4", none, some (.namedComponent (.type ⟨"foo"⟩) "x")⟩,
        .declaration ⟨"d5", none, some (.indexing (.type ⟨"foo"⟩) (.type ⟨"foo"⟩))⟩]⟩
      "foo" "bar"
    = ⟨[.declaration ⟨"d1", none, some (.unary .negation (.type ⟨"foo"⟩))⟩,
        .declaration ⟨"d2", none, some (.binary .addition (.type ⟨"foo"⟩) (.literal 1))⟩,
        .declaration ⟨"d3", none, some (.parenthesized (.type ⟨"foo"⟩))⟩,
        .declaration ⟨"d4", none, some (.namedComponent (.type ⟨"foo"⟩) "x")⟩,
        .declaration ⟨"d5", none, some (.indexing (.type ⟨"foo"⟩) (.type ⟨"foo"⟩))⟩]⟩
    ∧ replaceImportedIdent ⟨[.declaration ⟨"d6", none, some (.type ⟨"foo"⟩)⟩]⟩ "foo" "bar"
      = ⟨[.declaration ⟨"d6", none, some (.type ⟨"bar"⟩)⟩]⟩ :=
  ⟨rfl, rfl⟩

/-- Claim C2: replace_imported_ident rewrites an occurrence of the old
identifier standing as a for loop's condition expression, as a switch case's
match (selector) expression, and as a loop continuing block's break-if
condition, each becoming the new identifier, whatever translation unit
surrounds them: arbitrary global declarations before and after the enclosing
function, arbitrary statements around the three statements, and arbitrary
subtrees in every other slot of those statements. -/
theorem replace_rewrites_for_switch_breakif_positions
    (old new : String) (gpre gpost : List GlobalDeclaration)
    (fname : String) (ps : List FormalParameter) (rt : Option TypeExpression)
    (spre spost : List Statement)
    (finit fupd : Option Statement) (fbody : CompoundStatement)
    (swe : Expression) (selpre selpost : List CaseSelector) (sbody : CompoundStatement)
    (scls : List SwitchClause) (lbody cbody : CompoundStatement) :
    replaceImportedIdent
      ⟨gpre ++
        .function ⟨fname, ps, rt, .mk (spre ++
          [.forStmt finit (some (.type ⟨old⟩)) fupd fbody,
           .switch swe (.mk (selpre ++ ⟨.type ⟨old⟩⟩ :: selpost) sbody :: scls),
           .loop lbody (some (.mk cbody (some (.type ⟨old⟩))))] ++ spost)⟩ :: gpost⟩
      old new
    = ⟨(gpre.map (gdTypeReplace old new)).map (gdExprReplace old new) ++
        .function ⟨fname, ps.map (paramReplace old new), rt.map (tyReplace old new),
          .mk (statReplaceList old new spre ++
            [.forStmt (finit.map (statReplace old new)) (some (.type ⟨new⟩))
               (fupd.map (statReplace old new)) (compReplace old new fbody),
             .switch (exprReplace old new swe)
               (.mk (caseSelectorsReplace old new selpre ++ ⟨.type ⟨new⟩⟩ ::
                  caseSelectorsReplace old new selpost) (compReplace old new sbody) ::
                switchClausesReplace old new scls),
             .loop (compReplace old new lbody)
               (some (.mk (compReplace old new cbody) (some (.type ⟨new⟩))))] ++
            statReplaceList old new spost)⟩ ::
        (gpost.map (gdTypeReplace old new)).map (gdExprReplace old new)⟩ := by
  cases finit <;> cases fupd <;>
    simp [replaceImportedIdent, gdTypeReplace, gdExprReplace, compReplace,
      statReplaceList_append, statReplaceList, statReplace, switchClausesReplace,
      caseSelectorsReplace_append, caseSelectorsReplace, contReplace, exprReplace,
      tyReplace, List.map_append]

/-- Claim C3 (amended): replace_imported_ident never changes the names of
declarations themselves — global declaration names, struct member names,
function parameter names, and the names of local variable declarations are
all preserved for every translation unit and identifier pair. -/
theorem replace_preserves_binding_names (tu : TranslationUnit) (old new : String) :
    bindingNames (replaceImportedIdent tu old new) = bindingNames tu := by
  obtain ⟨gds⟩ := tu
  induction gds with
  | nil => rfl
  | cons d rest ih =>
    simpa [bindingNames, replaceImportedIdent, gdBindingNames_replace old new d]
      using congrArg (gdBindingNames d ++ ·) ih

/-- Claim C3 (counterexample): replace_imported_ident performs no scope
analysis: in a function whose parameter is itself named foo, the body's
reference to that unrelated local binding is rewritten to bar all the same,
so the translation unit is not left unchanged as the claim requires. -/
theorem replace_rewrites_local_binding_reference :
    replaceImportedIdent
        ⟨[.function ⟨"f", [⟨"foo", ⟨"u32"⟩⟩], none, .mk [.ret (some (.type ⟨"foo"⟩))]⟩]⟩
        "foo" "bar"
      = ⟨[.function ⟨"f", [⟨"foo", ⟨"u32"⟩⟩], none, .mk [.ret (some (.type ⟨"bar"⟩))]⟩]⟩
    ∧ replaceImportedIdent
        ⟨[.function ⟨"f", [⟨"foo", ⟨"u32"⟩⟩], none, .mk [.ret (some (.type ⟨"foo"⟩))]⟩]⟩
        "foo" "bar"
      ≠ ⟨[.function ⟨"f", [⟨"foo", ⟨"u32"⟩⟩], none, .mk [.ret (some (.type ⟨"foo"⟩))]⟩]⟩ := by
  refine ⟨rfl, fun h => ?_⟩
  simp [replaceImportedIdent, gdTypeReplace, gdExprReplace, compReplace, statReplaceList,
    statReplace, exprReplace, tyReplace, paramReplace] at h

/-- Claim C4: FileManglerHash::mangle is a pure, deterministic function of
the resource and the item name: any two calls with equal arguments return
identical strings (the embedding is a pure function because the Rust method
builds a fresh fixed-key hasher per call and reads no shared state). -/
theorem fileManglerHash_deterministic (r₁ : FileResource) (i₁ : String)
    (r₂ : FileResource) (i₂ : String) (hr : r₁ = r₂) (hi : i₁ = i₂) :
    fileManglerHash r₁ i₁ = fileManglerHash r₂ i₂ := by
  subst hr; subst hi; rfl

/-- Witness for claim C4 at a concrete argument pair. -/
theorem fileManglerHash_deterministic_witness :
    fileManglerHash ⟨"lib"⟩ "foo" = fileManglerHash ⟨"lib"⟩ "foo" :=
  fileManglerHash_deterministic ⟨"lib"⟩ "foo" ⟨"lib"⟩ "foo" rfl rfl

/-- Claim C5: FileManglerHash::mangle returns the original item name, an
underscore, and the decimal rendering of a 64-bit hash of the resource
identity and the item name; in particular the original name is a prefix of
the mangled identifier. -/
theorem fileManglerHash_shape (r : FileResource) (item : String) :
    defaultHash r item < 2 ^ 64 ∧
    fileManglerHash r item = item ++ ("_" ++ decRepr (defaultHash r item)) ∧
    List.IsPrefix item.data (fileManglerHash r item).data := by
  refine ⟨defaultHash_lt r item, ?_, ?_⟩
  · show item ++ "_" ++ decRepr (defaultHash r item) = _
    rw [String.append_assoc]
  · exact ⟨("_" ++ decRepr (defaultHash r item)).data, by
      show _ = (item ++ "_" ++ decRepr (defaultHash r item)).data
      simp [String.data_append]⟩

/-- Claim C6 (counterexample): FileManglerHash::mangle is not injective:
the distinct resources Aa and BB collide under the modelled 64-bit hash, so
with the same item name x the two distinct (resource, name) pairs receive
the same mangled string. -/
theorem fileManglerHash_not_injective :
    fileManglerHash ⟨"Aa"⟩ "x" = fileManglerHash ⟨"BB"⟩ "x"
    ∧ (FileResource.mk "Aa", "x") ≠ (FileResource.mk "BB", "x") := by
  constructor
  · unfold fileManglerHash
    rw [show defaultHash ⟨"Aa"⟩ "x" = defaultHash ⟨"BB"⟩ "x" from by decide]
  · decide

/-- Claim C6 (amended): mangled strings collide exactly up to hash
collisions: whenever two calls return the same string, the item names were
equal and the underlying 64-bit hashes collided.  In particular two pairs
with distinct names, or with equal names but distinct hash values, always
receive distinct mangled identifiers. -/
theorem fileManglerHash_inj_up_to_hash (r₁ : FileResource) (i₁ : String)
    (r₂ : FileResource) (i₂ : String)
    (h : fileManglerHash r₁ i₁ = fileManglerHash r₂ i₂) :
    i₁ = i₂ ∧ defaultHash r₁ i₁ = defaultHash r₂ i₂ := by
  have hd := congrArg String.data h
  have hu : ("_" : String).data = ['_'] := rfl
  simp only [fileManglerHash, String.data_append, hu, List.append_assoc,
    List.singleton_append] at hd
  obtain ⟨h1, h2⟩ := append_cons_underscore_inj i₁.data (decRepr (defaultHash r₁ i₁)).data
    i₂.data (decRepr (defaultHash r₂ i₂)).data
    (underscore_not_mem_decRepr _) (underscore_not_mem_decRepr _) hd
  constructor
  · cases i₁; cases i₂; exact congrArg String.mk h1
  · apply decRepr_inj
    cases hm : decRepr (defaultHash r₁ i₁)
    cases hn : decRepr (defaultHash r₂ i₂)
    rw [hm, hn] at h2
    exact congrArg String.mk h2

/-- Witness for claim C6 (amended) at a concrete argument pair. -/
theorem fileManglerHash_inj_up_to_hash_witness :
    "foo" = "foo" ∧ defaultHash ⟨"lib"⟩ "foo" = defaultHash ⟨"lib"⟩ "foo" :=
  fileManglerHash_inj_up_to_hash ⟨"lib"⟩ "foo" ⟨"lib"⟩ "foo" rfl

/-- Claim C7: Module::mangle of a module whose import map is empty returns
Ok and leaves the module, in particular its source translation unit, exactly
as it was. -/
theorem mangle_empty_imports_identity (m : Module)
    (mangler : FileResource → String → String) (h : m.imports = []) :
    Module.mangle m mangler = .ok m := by
  obtain ⟨res, src, imps⟩ := m
  cases h
  rfl

/-- Witness for claim C7 at a concrete module with no imports. -/
theorem mangle_empty_imports_identity_witness :
    Module.mangle ⟨⟨"entry"⟩, ⟨[.function ⟨"main", [], none, .mk []⟩]⟩, []⟩
        (fun _ s => s)
      = .ok ⟨⟨"entry"⟩, ⟨[.function ⟨"main", [], none, .mk []⟩]⟩, []⟩ :=
  mangle_empty_imports_identity _ _ rfl

theorem renameDecl_isImport (mangler : FileResource → String → String)
    (res : FileResource) (d : GlobalDeclaration) :
    (renameDecl mangler res d).isImport = d.isImport := by
  cases d <;> rfl

/-- The number of import-directive declarations of a translation unit. -/
def importCount (tu : TranslationUnit) : Nat :=
  tu.global_declarations.countP GlobalDeclaration.isImport

theorem assemble_import_free (mangler : FileResource → String → String)
    (entry : FileResource) (memo : List (FileResource × Module)) :
    importCount (assemble mangler entry memo) = 0 := by
  unfold importCount assemble
  rw [List.countP_eq_zero]
  intro d hd
  simp only [List.mem_flatMap] at hd
  obtain ⟨p, _, hd⟩ := hd
  by_cases hpe : (p.1 == entry) = true
  · simp only [hpe, if_pos] at hd
    have := (List.mem_filter.mp hd).2
    simp only [Bool.not_eq_true'] at this
    simp [this]
  · simp only [hpe] at hd
    simp only [if_neg, Bool.false_eq_true, not_false_iff] at hd
    obtain ⟨q, hq, rfl⟩ := List.mem_map.mp hd
    have := (List.mem_filter.mp hq).2
    simp only [Bool.not_eq_true'] at this
    simp [renameDecl_isImport, this]

/-- Claim C8: whenever compile succeeds on an entry resource, the returned
translation unit contains zero import-directive global declarations. -/
theorem compile_output_import_free (rm : ResolverMap) (entry : FileResource)
    (tu : TranslationUnit) (h : compile rm entry = .ok tu) :
    importCount tu = 0 := by
  unfold compile at h
  cases hres : resolveRec rm fileManglerHash (rm.length + 1) [] [] entry with
  | error e => rw [hres] at h; cases h
  | ok pr =>
    rw [hres] at h
    have : assemble fileManglerHash entry pr.2 = tu := by
      cases h; rfl
    rw [← this]
    exact assemble_import_free fileManglerHash entry pr.2

/-- Witness for claim C8: a concrete entry module with no imports compiles
successfully and the output has no import directives. -/
theorem compile_output_import_free_witness :
    importCount ⟨[.function ⟨"main", [], none, .mk []⟩]⟩ = 0 :=
  compile_output_import_free [(⟨"main"⟩, ⟨[.function ⟨"main", [], none, .mk []⟩]⟩)]
    ⟨"main"⟩ ⟨[.function ⟨"main", [], none, .mk []⟩]⟩ rfl

/-- Claim C9: for an import item carrying a rename alias, Module::mangle
replaces occurrences of the alias in the module's source, and the
replacement string is the mangled form of the original exported name (the
same string the exporting module's declaration receives). -/
theorem mangle_uses_alias_as_old_and_name_for_mangling
    (mangler : FileResource → String → String) (res : FileResource)
    (src : TranslationUnit) (r : FileResource) (n a : String) :
    Module.mangle ⟨res, src, [(r, [⟨n, some a⟩])]⟩ mangler
      = .ok ⟨res, replaceImportedIdent src a (mangler r n), [(r, [⟨n, some a⟩])]⟩ :=
  rfl

/-- Claim C10: Module::mangle never returns an error: despite its Result
return type, every module and every mangler yield Ok. -/
theorem mangle_always_ok (m : Module) (mangler : FileResource → String → String) :
    ∃ m', Module.mangle m mangler = .ok m' :=
  ⟨_, rfl⟩

end WgslImports
